import Mathlib

set_option maxHeartbeats 1000000

/-!
Shallow embedding of the single-file video transcoding pipeline in
`src/main.py` (a Google Cloud Function).  Pure helpers (`os.path` string
manipulation, JSON serialisation, Python `max`) are translated directly;
external collaborators (object storage, the ffmpeg subprocesses, Pub/Sub)
are modelled by a `World` record that fixes the outcome of every external
call, and the handler threads an explicit state (local filesystem,
destination-bucket keys, chronological event trace) through the same
control flow as the source, with Python exceptions rendered as `Except`.
-/

namespace VodPipeline

/-- A parsed JSON value, the result of `request.get_json(silent=True)` in
`transcoder_handler`; at the call site `none` stands for an absent or
unparseable request body. -/
inductive Json where
  | null
  | bool (b : Bool)
  | num (n : Int)
  | str (s : String)
  | arr (elems : List Json)
  | obj (fields : List (String × Json))

/-- Python truthiness of a JSON value, as tested by `if not request_json:`
(line 25 of `src/main.py`): `None`, `False`, `0`, `""`, `[]` and an empty
object are all falsy. -/
def Json.truthy : Json → Bool
  | .null => false
  | .bool b => b
  | .num n => n != 0
  | .str s => s != ""
  | .arr elems => !elems.isEmpty
  | .obj fields => !fields.isEmpty

/-- Truthiness of the optional parse result: `request.get_json(silent=True)`
returns `None` (here `none`) when the body is missing or unparseable, and
`if not request_json:` treats that exactly like a falsy JSON value. -/
def jsonTruthyOpt : Option Json → Bool
  | none => false
  | some j => j.truthy

/-- Lower-case hexadecimal digit, as used by Python `json` for escapes. -/
def hexDigitChar (n : Nat) : Char :=
  if n < 10 then Char.ofNat (48 + n) else Char.ofNat (87 + n)

/-- Four-digit lower-case hexadecimal rendering of `n`, for a JSON escape. -/
def hex4 (n : Nat) : String :=
  String.mk [hexDigitChar (n / 4096 % 16), hexDigitChar (n / 256 % 16),
             hexDigitChar (n / 16 % 16), hexDigitChar (n % 16)]

/-- Escaping of one character by Python `json.dumps` with its default
`ensure_ascii=True`: the two-character escapes for quote, backslash and the
common control characters, and a numeric escape (with a surrogate pair
beyond the basic plane) for every character outside printable ASCII. -/
def pyJsonEscapeChar (c : Char) : String :=
  if c = '"' then "\\\""
  else if c = '\\' then "\\\\"
  else if c = Char.ofNat 8 then "\\b"
  else if c = Char.ofNat 12 then "\\f"
  else if c = '\n' then "\\n"
  else if c = Char.ofNat 13 then "\\r"
  else if c = '\t' then "\\t"
  else if c.toNat < 32 || 126 < c.toNat then
    if c.toNat < 65536 then "\\u" ++ hex4 c.toNat
    else
      let v := c.toNat - 65536
      "\\u" ++ hex4 (55296 + v / 1024) ++ "\\u" ++ hex4 (56320 + v % 1024)
  else String.mk [c]

/-- Escaping of a whole string by Python `json.dumps`. -/
def pyJsonEscape (s : String) : String :=
  String.join (s.data.map pyJsonEscapeChar)

/-- The serialised notification message built at line 164 of `src/main.py`:
`json.dumps({"message": f"Processing completed for {file_name}"})` with the
default separators. -/
def dumpsCompletedMessage (fileName : String) : String :=
  "\x7b\"message\": \"" ++ pyJsonEscape ("Processing completed for " ++ fileName) ++ "\"\x7d"

/-- UTF-8 encoding of one character (the bytes produced by
`str.encode("utf-8")`). -/
def utf8EncodeChar (c : Char) : List Nat :=
  let n := c.toNat
  if n < 128 then [n]
  else if n < 2048 then [192 + n / 64, 128 + n % 64]
  else if n < 65536 then [224 + n / 4096, 128 + n / 64 % 64, 128 + n % 64]
  else [240 + n / 262144, 128 + n / 4096 % 64, 128 + n / 64 % 64, 128 + n % 64]

/-- UTF-8 encoding of a string, byte by byte. -/
def utf8Encode (s : String) : List Nat :=
  (s.data.map utf8EncodeChar).flatten

/-- Index of the last occurrence of `c` in `l`, or `-1` when absent: the
semantics of Python `str.rfind` as used by `posixpath.basename` and
`posixpath.splitext`. -/
def lastIdxOf : List Char → Char → Int
  | [], _ => -1
  | a :: as, c =>
    if 0 ≤ lastIdxOf as c then lastIdxOf as c + 1
    else if a = c then 0 else -1

/-- Character-list core of `posixpath.basename`: everything after the last
slash (`p[p.rfind('/') + 1:]`). -/
def basenameAux (l : List Char) : List Char :=
  l.drop (lastIdxOf l '/' + 1).toNat

/-- `os.path.basename` on POSIX paths, as called at line 36 of
`src/main.py`. -/
def basename (p : String) : String :=
  String.mk (basenameAux p.data)

/-- Character-list core of `posixpath.splitext`: split at the last dot when
it lies after the last slash and at least one non-dot character of the file
name stands before it; otherwise the extension is empty. -/
def splitextAux (l : List Char) : List Char × List Char :=
  let sepIndex := lastIdxOf l '/'
  let dotIndex := lastIdxOf l '.'
  if sepIndex < dotIndex then
    if (List.range l.length).any (fun i =>
        decide (sepIndex < (i : Int)) && decide ((i : Int) < dotIndex)
          && (l.getD i '.' != '.')) then
      (l.take dotIndex.toNat, l.drop dotIndex.toNat)
    else (l, [])
  else (l, [])

/-- The exact condition under which `posixpath.splitext` strips an
extension (the while-loop of its implementation): some index lies strictly
between the last slash and the last dot and holds a non-dot character.
When this is false — no dot at all, or only dots from the start of the
file name up to its last dot, as in `.bashrc` or `.b` — `splitext` returns
the input unchanged. -/
def stripsExt (l : List Char) : Bool :=
  (List.range l.length).any (fun i =>
    decide (lastIdxOf l '/' < (i : Int)) && decide ((i : Int) < lastIdxOf l '.')
      && (l.getD i '.' != '.'))

/-- `os.path.splitext` on POSIX paths, as called at line 36 of
`src/main.py`. -/
def os_path_splitext (p : String) : String × String :=
  (String.mk (splitextAux p.data).1, String.mk (splitextAux p.data).2)

/-- The `base_file_name` derivation of line 36 of `src/main.py`:
`os.path.splitext(os.path.basename(source_gcs_object))[0]`. -/
def base_file_name (objectKey : String) : String :=
  (os_path_splitext (basename objectKey)).1

/-- Boolean string-prefix test (`str.startswith`), computed on the
character lists. -/
def strStartsWith (pre s : String) : Bool :=
  pre.data.isPrefixOf s.data

/-- Boolean test whether a string ends with a slash (`path.endswith('/')`). -/
def strEndsWithSlash (s : String) : Bool :=
  s.data.getLast? == some '/'

/-- `os.path.join` on POSIX paths for the two-argument call at line 195 of
`src/main.py`: an absolute second component wins, and a separator is
inserted only when the first component is non-empty and does not already
end in one. -/
def os_path_join (a b : String) : String :=
  if strStartsWith "/" b then b
  else if a == "" || strEndsWithSlash a then a ++ b
  else a ++ "/" ++ b

/-- `os.path.relpath(f, d)` specialised to the only way the source uses it
(line 194): `f` is a path produced by `os.walk(d)`, hence lies strictly
below `d`, and the relative path is `f` with the leading `d ++ "/"`
removed. -/
def relPathUnder (d f : String) : String :=
  String.mk (f.data.drop (d.data.length + 1))

/-- A stored object as seen through the storage listing: its key and its
creation timestamp (`blob.name`, `blob.time_created`). -/
structure Blob where
  name : String
  timeCreated : Nat
deriving DecidableEq

/-- One step of Python `max(..., key=lambda blob: blob.time_created)`:
the running best is replaced exactly when the new element's key is
strictly greater. -/
def latestStep (best x : Blob) : Blob :=
  if best.timeCreated < x.timeCreated then x else best

/-- `get_latest_blob` (lines 72-76 of `src/main.py`):
`max(blobs, key=lambda blob: blob.time_created, default=None)`. -/
def get_latest_blob : List Blob → Option Blob
  | [] => none
  | b :: bs => some (bs.foldl latestStep b)

/-- The local scratch filesystem, as sets (lists up to membership) of file
paths and directory paths. -/
structure FS where
  files : List String
  dirs : List String
deriving DecidableEq

/-- `os.path.exists`. -/
def fsExists (fs : FS) (p : String) : Bool :=
  fs.files.contains p || fs.dirs.contains p

/-- `os.path.isdir`. -/
def fsIsDir (fs : FS) (p : String) : Bool :=
  fs.dirs.contains p

/-- Record creation of one file (download target, ffmpeg output, ...). -/
def addFile (fs : FS) (p : String) : FS :=
  { fs with files := fs.files ++ [p] }

/-- Record creation of one directory (`os.makedirs`). -/
def addDir (fs : FS) (p : String) : FS :=
  { fs with dirs := fs.dirs ++ [p] }

/-- Record creation of a batch of files under a directory. -/
def addFileList (fs : FS) (ps : List String) : FS :=
  { fs with files := fs.files ++ ps }

/-- Record creation of a batch of directories. -/
def addDirList (fs : FS) (ps : List String) : FS :=
  { fs with dirs := fs.dirs ++ ps }

/-- The `os.walk` + `os.remove` loop of `clear_tmp_files` (lines 208-210):
every file lying strictly below `p` is removed. -/
def removeFilesUnder (fs : FS) (p : String) : FS :=
  { fs with files := fs.files.filter (fun f => !strStartsWith (p ++ "/") f) }

/-- Processing of one scratch path by `clear_tmp_files` (lines 205-213):
nothing happens when the path does not exist; a plain file is removed; for
a directory all files below it are removed and then `os.rmdir` is applied,
which raises (here: `Except.error` carrying the filesystem as mutated so
far) when anything — in particular a subdirectory — is left inside. -/
def clearOne (fs : FS) (p : String) : Except FS FS :=
  if fsExists fs p then
    if fsIsDir fs p then
      let fs1 := removeFilesUnder fs p
      if fs1.files.any (fun f => strStartsWith (p ++ "/") f)
          || fs1.dirs.any (fun d => strStartsWith (p ++ "/") d) then
        .error fs1
      else .ok { fs1 with dirs := fs1.dirs.filter (fun d => d != p) }
    else .ok { fs with files := fs.files.filter (fun f => f != p) }
  else .ok fs

/-- The `for tmp_path in tmp_paths:` loop of `clear_tmp_files`; an
exception raised for one path aborts the loop. -/
def clearList (fs : FS) : List String → Except FS FS
  | [] => .ok fs
  | p :: rest =>
    match clearOne fs p with
    | .ok fs1 => clearList fs1 rest
    | .error fs1 => .error fs1

/-- The `tmp_paths` list of lines 200-204 of `src/main.py`. -/
def tmp_paths (baseFileName : String) : List String :=
  ["/tmp/" ++ baseFileName ++ "_dash",
   "/tmp/" ++ baseFileName ++ "_txt",
   "/tmp/" ++ baseFileName ++ ".jpg"]

/-- `clear_tmp_files` (lines 199-214 of `src/main.py`) acting on the local
filesystem. -/
def clear_tmp_files (fs : FS) (baseFileName : String) : Except FS FS :=
  clearList fs (tmp_paths baseFileName)

/-- The pairs `(local_path, destination_blob_name)` produced by the walk in
`upload_directory` (lines 187-196): every file lying below the local
directory, uploaded under the prefix joined with its relative path. -/
def upload_directory (fs : FS) (localDir dstPre : String) : List (String × String) :=
  fs.files.filterMap fun f =>
    if strStartsWith (localDir ++ "/") f then
      some (f, os_path_join dstPre (relPathUnder localDir f))
    else none

/-- The fixed ffmpeg transcode/packaging command of lines 97-131 of
`src/main.py`. -/
def ffmpeg_dash_command (localVideoPath dashManifestPath : String) : List String :=
  ["ffmpeg", "-loglevel", "error", "-i", localVideoPath,
   "-filter_complex",
   "[0:v]split=3[vsd][vhd][vuhd];[vsd]scale=854:480[voutsd];[vhd]scale=1280:720[vouthd];[vuhd]scale=1920:1080[voutuhd]",
   "-map", "[voutsd]", "-map", "0:a",
   "-b:v:0", "2M", "-c:v:0", "libx264", "-g", "120", "-keyint_min", "120",
   "-preset", "fast", "-profile:v:0", "main",
   "-map", "[vouthd]", "-map", "0:a",
   "-b:v:1", "6M", "-c:v:1", "libx264", "-g", "120", "-keyint_min", "120",
   "-preset", "fast", "-profile:v:1", "main",
   "-map", "[voutuhd]", "-map", "0:a",
   "-b:v:2", "10M", "-c:v:2", "libx264", "-g", "120", "-keyint_min", "120",
   "-preset", "fast", "-profile:v:2", "high",
   "-f", "dash", "-use_template", "0", "-use_timeline", "0",
   "-seg_duration", "2",
   "-init_seg_name", "init-$RepresentationID$.mp4",
   "-media_seg_name", "segment-$RepresentationID$-$Number$.m4s",
   "-adaptation_sets", "id=0,streams=v id=1,streams=a",
   dashManifestPath]

/-- The fixed ffmpeg thumbnail command of lines 144-153 of `src/main.py`. -/
def ffmpeg_thumbnail_command (localVideoPath localThumbnailPath : String) : List String :=
  ["ffmpeg", "-loglevel", "error", "-y", "-i", localVideoPath,
   "-ss", "00:00:10", "-vframes", "1", "-q:v", "2", localThumbnailPath]

/-- One externally observable action of a run, in chronological order. -/
inductive Event where
  | copy (destKey : String)
  | download (blobName localPath : String)
  | runDash
  | runThumb
  | upload (localPath destKey : String)
  | publish (payload : List Nat)
deriving DecidableEq

/-- The mutable state threaded through one invocation: the local scratch
filesystem, the keys present in the destination bucket, and the trace of
external actions performed so far. -/
structure PState where
  fs : FS
  destKeys : List String
  events : List Event
deriving DecidableEq

/-- The outcome of every external call during one invocation, fixed up
front: the parsed request body, the source-bucket listing, the initial
local filesystem and destination-bucket contents, a success flag for each
fallible external operation, and the files/directories the dash ffmpeg run
writes (relative to its output directory) when it succeeds. -/
structure World where
  requestJson : Option Json
  sourceBlobs : List Blob
  initialFS : FS
  initialDest : List String
  copySucceeds : Bool
  downloadSucceeds : Bool
  dashExitOk : Bool
  dashOutFiles : List String
  dashOutDirs : List String
  thumbExitOk : Bool
  uploadSucceeds : Bool
  publishSucceeds : Bool

/-- The state carried by either outcome of a step (on `error` it is the
state at the moment the Python exception was raised). -/
def outState : Except PState PState → PState
  | .ok st => st
  | .error st => st

/-- `copy_original_file` (lines 79-84): one `copy_blob` call into the
destination bucket under `{base}/original/{originalKey}`. -/
def copy_original_file (w : World) (st : PState) (sourceBlobName baseFileName : String) :
    Except PState PState :=
  let newBlobName := baseFileName ++ "/original/" ++ sourceBlobName
  if w.copySucceeds then
    .ok { st with destKeys := st.destKeys ++ [newBlobName],
                  events := st.events ++ [.copy newBlobName] }
  else .error st

/-- `download_blob` (lines 169-175): one `download_to_filename` call that
stages the object at the given local path. -/
def download_blob (w : World) (st : PState) (sourceBlobName destinationFileName : String) :
    Except PState PState :=
  if w.downloadSucceeds then
    .ok { st with fs := addFile st.fs destinationFileName,
                  events := st.events ++ [.download sourceBlobName destinationFileName] }
  else .error st

/-- `upload_blob` (lines 178-184): one `upload_from_filename` call adding
the destination key to the destination bucket. -/
def upload_blob (w : World) (st : PState) (sourceFileName destinationBlobName : String) :
    Except PState PState :=
  if w.uploadSucceeds then
    .ok { st with destKeys := st.destKeys ++ [destinationBlobName],
                  events := st.events ++ [.upload sourceFileName destinationBlobName] }
  else .error st

/-- The upload loop inside `upload_directory` (lines 191-196), performing
one `upload_blob` per walked file. -/
def uploadList (w : World) (st : PState) : List (String × String) → Except PState PState
  | [] => .ok st
  | (lp, k) :: rest =>
    match upload_blob w st lp k with
    | .ok st1 => uploadList w st1 rest
    | .error st1 => .error st1

/-- `generate_dash_files` (lines 87-136): create the output directory,
download the source to `/tmp/{objectKey}`, run the dash ffmpeg command
(`check=True`, so a non-zero exit raises), and on success upload the
output directory. On success the external process has written the
world-chosen files and directories under the output directory. -/
def generate_dash_files (w : World) (st : PState)
    (sourceBlobName outputPath outputDir : String) : Except PState PState :=
  let localVideoPath := "/tmp/" ++ sourceBlobName
  let st0 := { st with fs := addDir st.fs outputDir }
  match download_blob w st0 sourceBlobName localVideoPath with
  | .error st1 => .error st1
  | .ok st1 =>
    if w.dashExitOk then
      let st2 :=
        { st1 with
          fs := addFileList (addDirList st1.fs (w.dashOutDirs.map (fun d => outputDir ++ "/" ++ d)))
                  (w.dashOutFiles.map (fun f => outputDir ++ "/" ++ f)),
          events := st1.events ++ [.runDash] }
      uploadList w st2 (upload_directory st2.fs outputDir outputPath)
    else .error { st1 with events := st1.events ++ [.runDash] }

/-- `generate_thumbnail` (lines 138-158): run the thumbnail ffmpeg command
(`check=True`) writing `/tmp/{base}.jpg`, then upload it to
`{base}/thumbnail/{base}.jpg`. -/
def generate_thumbnail (w : World) (st : PState) (baseFileName : String) :
    Except PState PState :=
  let localThumbnailPath := "/tmp/" ++ baseFileName ++ ".jpg"
  if w.thumbExitOk then
    let st1 := { st with fs := addFile st.fs localThumbnailPath,
                         events := st.events ++ [.runThumb] }
    upload_blob w st1 localThumbnailPath
      (baseFileName ++ "/thumbnail/" ++ baseFileName ++ ".jpg")
  else .error { st with events := st.events ++ [.runThumb] }

/-- `job_completed_notification` (lines 160-166): publish the UTF-8 bytes
of the serialised completion message. -/
def job_completed_notification (w : World) (st : PState) (fileName : String) :
    Except PState PState :=
  let message := utf8Encode (dumpsCompletedMessage fileName)
  if w.publishSucceeds then
    .ok { st with events := st.events ++ [.publish message] }
  else .error st

/-- The structured response of `transcoder_handler`. -/
structure HandlerResult where
  statusCode : Nat
  message : String
  outputPath : Option String
deriving DecidableEq

/-- The 400 response of line 26 of `src/main.py`. -/
def invalidInputResult : HandlerResult :=
  ⟨400, "Invalid input. JSON body required.", none⟩

/-- The 404 response of line 32 of `src/main.py`. -/
def notFoundResult : HandlerResult :=
  ⟨404, "No files found in source bucket.", none⟩

/-- The 500 response of line 69 of `src/main.py`. -/
def serverErrorResult : HandlerResult :=
  ⟨500, "Internal server error.", none⟩

/-- The stages of `transcoder_handler` after a successful archive copy
(lines 42-66 of `src/main.py`): dash generation and upload, thumbnail,
text-directory creation, completion notification, scratch cleanup, with
every raised exception caught as the 500 response. -/
def pipelineTail (w : World) (st1 : PState) (sourceGcsObject baseName : String) :
    HandlerResult × PState :=
  let dashOutputPath := baseName ++ "/dash/"
  let dashOutputDir := "/tmp/" ++ baseName ++ "_dash"
  match generate_dash_files w st1 sourceGcsObject dashOutputPath dashOutputDir with
  | .error s => (serverErrorResult, s)
  | .ok st2 =>
    match generate_thumbnail w st2 baseName with
    | .error s => (serverErrorResult, s)
    | .ok st3 =>
      let txtOutputDir := "/tmp/" ++ baseName ++ "_txt"
      let st4 := if fsExists st3.fs txtOutputDir then st3
                 else { st3 with fs := addDir st3.fs txtOutputDir }
      match job_completed_notification w st4 baseName with
      | .error s => (serverErrorResult, s)
      | .ok st5 =>
        match clear_tmp_files st5.fs baseName with
        | .error fsPartial => (serverErrorResult, { st5 with fs := fsPartial })
        | .ok fsClean =>
          (⟨200, "Transcoding and DASH packaging completed for " ++ sourceGcsObject ++ ".",
            some dashOutputPath⟩,
           { st5 with fs := fsClean })

/-- `transcoder_handler` (lines 21-69 of `src/main.py`): the full
orchestration — request truthiness check, latest-blob selection, archive
copy, then the remaining stages of `pipelineTail` — with every raised
exception caught at the boundary as the 500 response. -/
def transcoder_handler (w : World) : HandlerResult × PState :=
  let st0 : PState := { fs := w.initialFS, destKeys := w.initialDest, events := [] }
  if !jsonTruthyOpt w.requestJson then (invalidInputResult, st0)
  else
    match get_latest_blob w.sourceBlobs with
    | none => (notFoundResult, st0)
    | some latestBlob =>
      let sourceGcsObject := latestBlob.name
      let baseName := base_file_name sourceGcsObject
      match copy_original_file w st0 sourceGcsObject baseName with
      | .error s => (serverErrorResult, s)
      | .ok st1 => pipelineTail w st1 sourceGcsObject baseName

/-- The payloads occurring in an event list, in order. -/
def publishedEvents : List Event → List (List Nat)
  | [] => []
  | .publish p :: es => p :: publishedEvents es
  | .copy _ :: es => publishedEvents es
  | .download _ _ :: es => publishedEvents es
  | .runDash :: es => publishedEvents es
  | .runThumb :: es => publishedEvents es
  | .upload _ _ :: es => publishedEvents es

/-- The payloads published during a run, in order. -/
def publishedOf (st : PState) : List (List Nat) :=
  publishedEvents st.events

/-! ### Concrete fixtures used by witnesses and counterexamples -/

/-- A non-empty parseable trigger payload. -/
def triggerJson : Option Json := some (.obj [("trigger", .str "manual")])

/-- A world in which every external call succeeds and the source bucket
holds the single object `movie.mp4`. -/
def wOk : World :=
  { requestJson := triggerJson
    sourceBlobs := [⟨"movie.mp4", 5⟩]
    initialFS := ⟨[], []⟩
    initialDest := []
    copySucceeds := true
    downloadSucceeds := true
    dashExitOk := true
    dashOutFiles := ["manifest.mpd", "init-0.mp4"]
    dashOutDirs := []
    thumbExitOk := true
    uploadSucceeds := true
    publishSucceeds := true }

/-- The all-success world over an empty source bucket. -/
def wEmptyBucket : World := { wOk with sourceBlobs := [] }

/-- The all-success world except that the dash ffmpeg run exits non-zero. -/
def wDashFail : World := { wOk with dashExitOk := false }

/-- The all-success world except that the Pub/Sub publish raises. -/
def wPubFail : World := { wOk with publishSucceeds := false }

/-- The all-success world in which the dash ffmpeg run additionally left a
subdirectory inside its output directory. -/
def wDashSubdir : World := { wOk with dashOutDirs := ["sub"] }

/-- The all-success world whose single source object is `movie.jpg`. -/
def wJpgSource : World := { wOk with sourceBlobs := [⟨"movie.jpg", 5⟩] }

/-- A world whose request body is the well-formed JSON document `false`. -/
def wFalseJson : World := { wOk with requestJson := some (.bool false) }

/-- A scratch filesystem on which cleanup for base name `b` encounters a
subdirectory inside `/tmp/b_dash`. -/
def fsNested : FS :=
  ⟨["/tmp/b_dash/sub/seg.m4s"], ["/tmp/b_dash", "/tmp/b_dash/sub"]⟩

/-- The filesystem state carried by the exception that cleanup raises on
`fsNested`: the file below the subdirectory has been removed, but both
directories are still present. -/
def fsNestedErr : FS := ⟨[], ["/tmp/b_dash", "/tmp/b_dash/sub"]⟩

/-- A typical scratch filesystem before cleanup for base name `b`. -/
def fsFlat : FS :=
  ⟨["/tmp/b_dash/manifest.mpd", "/tmp/b.jpg", "/tmp/keep.txt"],
   ["/tmp/b_dash", "/tmp/b_txt", "/tmp/keep_dir"]⟩

/-- A filesystem holding one dash output file, for the upload example. -/
def fsDashOut : FS :=
  ⟨["/tmp/movie_dash/init-0.mp4"], ["/tmp/movie_dash"]⟩

end VodPipeline

namespace VodPipeline

/-! ### Bridge lemmas -/

theorem contains_eq_true_iff {l : List String} {a : String} :
    l.contains a = true ↔ a ∈ l := by
  simp [List.contains]

theorem strMk_data (s : String) : String.mk s.data = s := rfl

theorem strStartsWith_iff {a s : String} :
    strStartsWith a s = true ↔ a.data <+: s.data := by
  simp [strStartsWith, List.isPrefixOf_iff_prefix]

theorem str_append_right_ne {pre s t : String} (h : s.data ≠ t.data) :
    pre ++ s ≠ pre ++ t := by
  intro he
  have hd := congrArg String.data he
  simp at hd
  exact h hd

/-! ### Selection of the latest blob -/

theorem latest_foldl_mem (bs : List Blob) (b : Blob) :
    bs.foldl latestStep b = b ∨ bs.foldl latestStep b ∈ bs := by
  induction bs generalizing b with
  | nil => exact Or.inl rfl
  | cons x xs ih =>
    rw [List.foldl_cons]
    rcases ih (latestStep b x) with h | h
    · rw [h]
      unfold latestStep
      split
      · exact Or.inr (List.mem_cons_self ..)
      · exact Or.inl rfl
    · exact Or.inr (List.mem_cons_of_mem _ h)

theorem latest_foldl_ge_init (bs : List Blob) (b : Blob) :
    b.timeCreated ≤ (bs.foldl latestStep b).timeCreated := by
  induction bs generalizing b with
  | nil => simp
  | cons x xs ih =>
    rw [List.foldl_cons]
    refine le_trans ?_ (ih (latestStep b x))
    unfold latestStep
    split <;> omega

theorem latest_foldl_ge_mem (bs : List Blob) (b x : Blob) (hx : x ∈ bs) :
    x.timeCreated ≤ (bs.foldl latestStep b).timeCreated := by
  induction bs generalizing b with
  | nil => cases hx
  | cons y ys ih =>
    rw [List.foldl_cons]
    rcases List.mem_cons.mp hx with rfl | h
    · refine le_trans ?_ (latest_foldl_ge_init ys (latestStep b x))
      unfold latestStep
      split <;> omega
    · exact ih (latestStep b y) h

theorem get_latest_blob_spec (blobs : List Blob) (b : Blob)
    (h : get_latest_blob blobs = some b) :
    b ∈ blobs ∧ ∀ x ∈ blobs, x.timeCreated ≤ b.timeCreated := by
  match blobs with
  | [] => cases h
  | a :: rest =>
    have hb : rest.foldl latestStep a = b := by
      simpa [get_latest_blob] using h
    constructor
    · rcases latest_foldl_mem rest a with h1 | h1
      · rw [← hb, h1]; exact List.mem_cons_self ..
      · rw [← hb]; exact List.mem_cons_of_mem _ h1
    · intro x hx
      rw [← hb]
      rcases List.mem_cons.mp hx with rfl | h2
      · exact latest_foldl_ge_init rest x
      · exact latest_foldl_ge_mem rest a x h2

/-! ### Path-derivation lemmas -/

theorem lastIdxOf_ge (l : List Char) (c : Char) : -1 ≤ lastIdxOf l c := by
  induction l with
  | nil => simp [lastIdxOf]
  | cons a as ih =>
    unfold lastIdxOf
    split
    · omega
    · split <;> omega

theorem lastIdxOf_eq_neg_one (l : List Char) (c : Char) (h : c ∉ l) :
    lastIdxOf l c = -1 := by
  induction l with
  | nil => rfl
  | cons a as ih =>
    have h1 : a ≠ c := fun he => h (he ▸ List.mem_cons_self ..)
    have h2 : c ∉ as := fun hm => h (List.mem_cons_of_mem _ hm)
    simp [lastIdxOf, ih h2, h1]

theorem lastIdxOf_nonneg_of_mem (l : List Char) (c : Char) (h : c ∈ l) :
    0 ≤ lastIdxOf l c := by
  induction l with
  | nil => cases h
  | cons a as ih =>
    unfold lastIdxOf
    rcases List.mem_cons.mp h with rfl | h2
    · split
      · omega
      · simp
    · have := ih h2
      split
      · omega
      · omega

theorem not_mem_drop_lastIdxOf (l : List Char) (c : Char) :
    c ∉ l.drop (lastIdxOf l c + 1).toNat := by
  induction l with
  | nil => simp
  | cons a as ih =>
    by_cases h : 0 ≤ lastIdxOf as c
    · have he : lastIdxOf (a :: as) c = lastIdxOf as c + 1 := by
        simp [lastIdxOf, h]
      rw [he, show (lastIdxOf as c + 1 + 1).toNat = (lastIdxOf as c + 1).toNat + 1 by omega,
        List.drop_succ_cons]
      exact ih
    · have h1 : lastIdxOf as c = -1 := by have := lastIdxOf_ge as c; omega
      have h2 : c ∉ as := fun hm => h (lastIdxOf_nonneg_of_mem as c hm)
      by_cases hac : a = c
      · have he : lastIdxOf (a :: as) c = 0 := by simp [lastIdxOf, h1, hac]
        rw [he]
        simpa using h2
      · have he : lastIdxOf (a :: as) c = -1 := by simp [lastIdxOf, h1, hac]
        rw [he]
        simp only [show ((-1 : Int) + 1).toNat = 0 by omega, List.drop_zero]
        exact fun hm => (List.mem_cons.mp hm).elim (fun he2 => hac he2.symm) h2

theorem slash_not_mem_basenameAux (l : List Char) : '/' ∉ basenameAux l :=
  not_mem_drop_lastIdxOf l '/'

theorem mem_splitextAux_fst {l : List Char} {x : Char}
    (h : x ∈ (splitextAux l).1) : x ∈ l := by
  unfold splitextAux at h
  dsimp only at h
  split at h
  · split at h
    · exact List.mem_of_mem_take h
    · exact h
  · exact h

theorem base_file_name_no_slash (k : String) : '/' ∉ (base_file_name k).data := by
  intro h
  exact slash_not_mem_basenameAux k.data (mem_splitextAux_fst h)

theorem base_file_name_fixed (s : String) (hd : '.' ∉ s.data) (hs : '/' ∉ s.data) :
    base_file_name s = s := by
  have h1 : basename s = s := by
    unfold basename basenameAux
    rw [lastIdxOf_eq_neg_one s.data '/' hs]
    simp [strMk_data]
  unfold base_file_name
  rw [h1]
  unfold os_path_splitext splitextAux
  rw [lastIdxOf_eq_neg_one s.data '.' hd]
  dsimp only
  have hsep := lastIdxOf_ge s.data '/'
  rw [if_neg (by omega)]

theorem lastIdxOf_lt_length (l : List Char) (c : Char) :
    lastIdxOf l c < (l.length : Int) := by
  induction l with
  | nil => simp [lastIdxOf]
  | cons a as ih =>
    unfold lastIdxOf
    simp only [List.length_cons]
    split
    · push_cast
      omega
    · split <;> (push_cast; omega)

theorem basename_of_no_slash (s : String) (hs : '/' ∉ s.data) : basename s = s := by
  unfold basename basenameAux
  rw [lastIdxOf_eq_neg_one s.data '/' hs]
  simp [strMk_data]

theorem splitextAux_fst_eq_self_iff (l : List Char) :
    (splitextAux l).1 = l ↔ stripsExt l = false := by
  cases hs : stripsExt l with
  | false =>
    have hs' : ((List.range l.length).any (fun i =>
        decide (lastIdxOf l '/' < (i : Int)) && decide ((i : Int) < lastIdxOf l '.')
          && (l.getD i '.' != '.'))) = false := hs
    simp only [splitextAux]
    rw [hs']
    simp
  | true =>
    have hs' : ((List.range l.length).any (fun i =>
        decide (lastIdxOf l '/' < (i : Int)) && decide ((i : Int) < lastIdxOf l '.')
          && (l.getD i '.' != '.'))) = true := hs
    obtain ⟨i, hi, hcond⟩ := List.any_eq_true.mp hs'
    rw [Bool.and_eq_true, Bool.and_eq_true] at hcond
    obtain ⟨⟨h1, h2⟩, -⟩ := hcond
    have h1' := of_decide_eq_true h1
    have h2' := of_decide_eq_true h2
    have hsd : lastIdxOf l '/' < lastIdxOf l '.' := lt_trans h1' h2'
    have hdlt : lastIdxOf l '.' < (l.length : Int) := lastIdxOf_lt_length l '.'
    simp only [splitextAux]
    rw [if_pos hsd, if_pos hs']
    refine iff_of_false ?_ (by simp)
    intro h
    have hlen := congrArg List.length h
    rw [List.length_take] at hlen
    have hn : (lastIdxOf l '.').toNat < l.length := by omega
    rw [min_eq_left (le_of_lt hn)] at hlen
    omega

theorem base_file_name_idempotent_iff (k : String) :
    base_file_name (base_file_name k) = base_file_name k ↔
    stripsExt (base_file_name k).data = false := by
  have hb : basename (base_file_name k) = base_file_name k :=
    basename_of_no_slash _ (base_file_name_no_slash k)
  have key : base_file_name (base_file_name k) =
      String.mk (splitextAux (base_file_name k).data).1 := by
    show (os_path_splitext (basename (base_file_name k))).1 = _
    rw [hb]
    rfl
  rw [key, ← splitextAux_fst_eq_self_iff]
  constructor
  · intro h
    have hd := congrArg String.data h
    simpa using hd
  · intro h
    rw [h]

/-! ### Upload path lemmas -/

theorem relPathUnder_append (dir rel : String) :
    relPathUnder dir (dir ++ "/" ++ rel) = rel := by
  unfold relPathUnder
  have h : (dir ++ "/" ++ rel).data = (dir.data ++ ['/']) ++ rel.data := by simp
  rw [h, List.drop_left' (by simp)]

theorem strEndsWithSlash_dash (baseName : String) :
    strEndsWithSlash (baseName ++ "/dash/") = true := by
  unfold strEndsWithSlash
  rw [String.data_append, List.getLast?_append,
    show ("/dash/".data).getLast? = some '/' from by decide]
  rfl

theorem os_path_join_dash (baseName rel : String) (hr : strStartsWith "/" rel = false) :
    os_path_join (baseName ++ "/dash/") rel = baseName ++ "/dash/" ++ rel := by
  unfold os_path_join
  rw [hr, strEndsWithSlash_dash baseName]
  simp

theorem strStartsWith_dir_append (dir rel : String) :
    strStartsWith (dir ++ "/") (dir ++ "/" ++ rel) = true := by
  rw [strStartsWith_iff, String.data_append (dir ++ "/") rel]
  exact List.prefix_append _ _

/-! ### Cleanup lemmas -/

theorem clearOne_spec (fs : FS) (p : String)
    (hwf : ¬(p ∈ fs.files ∧ p ∈ fs.dirs))
    (hcl : ∀ f ∈ fs.files, strStartsWith (p ++ "/") f = true → p ∈ fs.dirs)
    (hsub : ∀ d ∈ fs.dirs, strStartsWith (p ++ "/") d = false) :
    ∃ fs1, clearOne fs p = .ok fs1 ∧
      (∀ f, f ∈ fs1.files ↔ f ∈ fs.files ∧ f ≠ p ∧ strStartsWith (p ++ "/") f = false) ∧
      (∀ d, d ∈ fs1.dirs ↔ d ∈ fs.dirs ∧ d ≠ p) := by
  cases hex : fsExists fs p with
  | false =>
    have hx : p ∉ fs.files ∧ p ∉ fs.dirs := by simpa [fsExists] using hex
    have hpf : p ∉ fs.files := hx.1
    have hpd : p ∉ fs.dirs := hx.2
    refine ⟨fs, by simp [clearOne, hex], ?_, ?_⟩
    · intro f
      constructor
      · intro hf
        refine ⟨hf, fun he => hpf (he ▸ hf), ?_⟩
        cases hc : strStartsWith (p ++ "/") f with
        | false => rfl
        | true => exact absurd (hcl f hf hc) hpd
      · exact fun h => h.1
    · intro d
      exact ⟨fun hd => ⟨hd, fun he => hpd (he ▸ hd)⟩, fun h => h.1⟩
  | true =>
    cases hdir : fsIsDir fs p with
    | false =>
      have hpd : p ∉ fs.dirs := by simpa [fsIsDir] using hdir
      refine ⟨⟨fs.files.filter (fun f => f != p), fs.dirs⟩,
        by simp [clearOne, hex, hdir], ?_, ?_⟩
      · intro f
        simp only [List.mem_filter, bne_iff_ne]
        constructor
        · rintro ⟨hf, hne⟩
          refine ⟨hf, hne, ?_⟩
          cases hc : strStartsWith (p ++ "/") f with
          | false => rfl
          | true => exact absurd (hcl f hf hc) hpd
        · rintro ⟨hf, hne, _⟩
          exact ⟨hf, hne⟩
      · intro d
        exact ⟨fun hd => ⟨hd, fun he => hpd (he ▸ hd)⟩, fun h => h.1⟩
    | true =>
      have hpd : p ∈ fs.dirs := contains_eq_true_iff.mp hdir
      have hpf : p ∉ fs.files := fun hf => hwf ⟨hf, hpd⟩
      have hany1 : ((fs.files.filter (fun f => !strStartsWith (p ++ "/") f)).any
          (fun f => strStartsWith (p ++ "/") f)) = false := by
        rw [Bool.eq_false_iff]
        intro hany
        obtain ⟨f, hf, hcond⟩ := List.any_eq_true.mp hany
        have h2 := (List.mem_filter.mp hf).2
        simp [hcond] at h2
      have hany2 : (fs.dirs.any (fun d => strStartsWith (p ++ "/") d)) = false := by
        rw [Bool.eq_false_iff]
        intro hany
        obtain ⟨d, hd, hcond⟩ := List.any_eq_true.mp hany
        rw [hsub d hd] at hcond
        cases hcond
      refine ⟨⟨fs.files.filter (fun f => !strStartsWith (p ++ "/") f),
        fs.dirs.filter (fun d => d != p)⟩,
        by simp [clearOne, hex, hdir, hany1, hany2, removeFilesUnder], ?_, ?_⟩
      · intro f
        simp only [List.mem_filter, Bool.not_eq_true']
        constructor
        · rintro ⟨hf, hnc⟩
          exact ⟨hf, fun he => hpf (he ▸ hf), hnc⟩
        · rintro ⟨hf, _, hc⟩
          exact ⟨hf, hc⟩
      · intro d
        simp [List.mem_filter]

theorem tmp_txt_ne_dash (b : String) :
    "/tmp/" ++ b ++ "_txt" ≠ "/tmp/" ++ b ++ "_dash" :=
  str_append_right_ne (by decide)

theorem tmp_jpg_ne_dash (b : String) :
    "/tmp/" ++ b ++ ".jpg" ≠ "/tmp/" ++ b ++ "_dash" :=
  str_append_right_ne (by decide)

theorem tmp_jpg_ne_txt (b : String) :
    "/tmp/" ++ b ++ ".jpg" ≠ "/tmp/" ++ b ++ "_txt" :=
  str_append_right_ne (by decide)

theorem clearOne_keep {fs fs1 : FS} {p f : String} (h : clearOne fs p = .ok fs1)
    (hf : f ∈ fs.files) (hne : f ≠ p) (hns : strStartsWith (p ++ "/") f = false) :
    f ∈ fs1.files := by
  unfold clearOne at h
  split at h
  · split at h
    · simp only [removeFilesUnder] at h
      split at h
      · cases h
      · simp only [Except.ok.injEq] at h
        subst h
        exact List.mem_filter.mpr ⟨hf, by simp [hns]⟩
    · simp only [Except.ok.injEq] at h
      subst h
      exact List.mem_filter.mpr ⟨hf, by simp [hne]⟩
  · simp only [Except.ok.injEq] at h
    subst h
    exact hf

theorem clearList_keep (ps : List String) (fs fs2 : FS) (f : String)
    (h : clearList fs ps = .ok fs2) (hf : f ∈ fs.files)
    (hp : ∀ p ∈ ps, f ≠ p ∧ strStartsWith (p ++ "/") f = false) :
    f ∈ fs2.files := by
  induction ps generalizing fs with
  | nil =>
    simp only [clearList, Except.ok.injEq] at h
    subst h
    exact hf
  | cons p rest ih =>
    simp only [clearList] at h
    cases hco : clearOne fs p with
    | error f1 => rw [hco] at h; cases h
    | ok fs1 =>
      rw [hco] at h
      have hf1 : f ∈ fs1.files :=
        clearOne_keep hco hf (hp p (List.mem_cons_self ..)).1 (hp p (List.mem_cons_self ..)).2
      exact ih fs1 h hf1 (fun q hq => hp q (List.mem_cons_of_mem _ hq))

/-! ### Event-trace lemmas -/

theorem publishedEvents_append (l1 l2 : List Event) :
    publishedEvents (l1 ++ l2) = publishedEvents l1 ++ publishedEvents l2 := by
  induction l1 with
  | nil => rfl
  | cons e es ih => cases e <;> simp [publishedEvents, ih]

theorem publishedEvents_map_upload (L : List (String × String)) :
    publishedEvents (L.map (fun pr => Event.upload pr.1 pr.2)) = [] := by
  induction L with
  | nil => rfl
  | cons pr rest ih => simp [publishedEvents, ih]

theorem fsExists_of_mem_files {fs : FS} {p : String} (h : p ∈ fs.files) :
    fsExists fs p = true := by
  simp [fsExists]
  exact Or.inl h

theorem fsExists_of_mem_dirs {fs : FS} {p : String} (h : p ∈ fs.dirs) :
    fsExists fs p = true := by
  simp [fsExists]
  exact Or.inr h

theorem uploadList_ok (w : World) (st : PState) (L : List (String × String))
    (h : w.uploadSucceeds = true) :
    uploadList w st L = .ok
      { st with destKeys := st.destKeys ++ L.map Prod.snd,
                events := st.events ++ L.map (fun pr => Event.upload pr.1 pr.2) } := by
  induction L generalizing st with
  | nil => simp [uploadList]
  | cons pr rest ih =>
    obtain ⟨lp, k⟩ := pr
    simp [uploadList, upload_blob, h, ih]

theorem uploadList_false (w : World) (st : PState) (L : List (String × String))
    (h : w.uploadSucceeds = false) :
    outState (uploadList w st L) = st := by
  cases L with
  | nil => rfl
  | cons pr rest => simp [uploadList, upload_blob, h, outState]

theorem gdf_out_events (w : World) (st : PState) (a p dir : String) :
    ∃ s, (outState (generate_dash_files w st a p dir)).events = st.events ++ s ∧
      publishedEvents s = [] := by
  unfold generate_dash_files
  cases hd : w.downloadSucceeds with
  | false => exact ⟨[], by simp [download_blob, hd, outState], rfl⟩
  | true =>
    cases hx : w.dashExitOk with
    | false =>
      refine ⟨[Event.download a ("/tmp/" ++ a), Event.runDash], ?_, rfl⟩
      simp [download_blob, hd, hx, outState]
    | true =>
      cases hu : w.uploadSucceeds with
      | false =>
        refine ⟨[Event.download a ("/tmp/" ++ a), Event.runDash], ?_, rfl⟩
        simp [download_blob, hd, hx, uploadList_false w _ _ hu]
      | true =>
        refine ⟨Event.download a ("/tmp/" ++ a) :: Event.runDash ::
          (upload_directory
            (addFileList
              (addDirList (addFile (addDir st.fs dir) ("/tmp/" ++ a))
                (w.dashOutDirs.map (fun d => dir ++ "/" ++ d)))
              (w.dashOutFiles.map (fun f => dir ++ "/" ++ f))) dir p).map
            (fun pr => Event.upload pr.1 pr.2), ?_, ?_⟩
        · simp [download_blob, hd, hx, uploadList_ok w _ _ hu, outState, addFile, addDir,
            addFileList, addDirList]
        · simp [publishedEvents, publishedEvents_map_upload]

theorem gth_out_events (w : World) (st : PState) (b : String) :
    ∃ s, (outState (generate_thumbnail w st b)).events = st.events ++ s ∧
      publishedEvents s = [] := by
  unfold generate_thumbnail
  cases ht : w.thumbExitOk with
  | false => exact ⟨[Event.runThumb], by simp [outState], rfl⟩
  | true =>
    cases hu : w.uploadSucceeds with
    | false => exact ⟨[Event.runThumb], by simp [upload_blob, hu, outState], rfl⟩
    | true =>
      exact ⟨[Event.runThumb,
        Event.upload ("/tmp/" ++ b ++ ".jpg") (b ++ "/thumbnail/" ++ b ++ ".jpg")],
        by simp [upload_blob, hu, outState], rfl⟩

theorem gdf_ok_flags {w : World} {st st2 : PState} {a p dir : String}
    (h : generate_dash_files w st a p dir = .ok st2) :
    w.downloadSucceeds = true ∧ w.dashExitOk = true := by
  unfold generate_dash_files at h
  cases hd : w.downloadSucceeds with
  | false => simp [download_blob, hd] at h
  | true =>
    cases hx : w.dashExitOk with
    | false => simp [download_blob, hd, hx] at h
    | true => exact ⟨rfl, rfl⟩

theorem gth_ok_flags {w : World} {st st2 : PState} {b : String}
    (h : generate_thumbnail w st b = .ok st2) :
    w.thumbExitOk = true ∧ w.uploadSucceeds = true := by
  unfold generate_thumbnail at h
  cases ht : w.thumbExitOk with
  | false => simp [ht] at h
  | true =>
    cases hu : w.uploadSucceeds with
    | false => simp [ht, upload_blob, hu] at h
    | true => exact ⟨rfl, rfl⟩

theorem notify_error {w : World} {st s : PState} {b : String}
    (h : job_completed_notification w st b = .error s) :
    s = st ∧ w.publishSucceeds = false := by
  unfold job_completed_notification at h
  cases hp : w.publishSucceeds with
  | false =>
    simp [hp] at h
    exact ⟨h.symm, rfl⟩
  | true => simp [hp] at h

theorem notify_ok {w : World} {st st5 : PState} {b : String}
    (h : job_completed_notification w st b = .ok st5) :
    st5 = { st with events :=
      st.events ++ [Event.publish (utf8Encode (dumpsCompletedMessage b))] } ∧
    w.publishSucceeds = true := by
  unfold job_completed_notification at h
  cases hp : w.publishSucceeds with
  | false => simp [hp] at h
  | true =>
    simp [hp] at h
    exact ⟨h.symm, rfl⟩

theorem txtStep_events (st3 : PState) (d : String) :
    (if fsExists st3.fs d then st3 else { st3 with fs := addDir st3.fs d }).events
      = st3.events := by
  split <;> rfl

theorem pipelineTail_events (w : World) (st1 : PState) (a b : String) :
    ∃ s, (pipelineTail w st1 a b).2.events = st1.events ++ s := by
  obtain ⟨s1, hs1, -⟩ := gdf_out_events w st1 a (b ++ "/dash/") ("/tmp/" ++ b ++ "_dash")
  simp only [pipelineTail]
  split
  · rename_i s heq
    rw [heq] at hs1
    simp only [outState] at hs1
    exact ⟨s1, hs1⟩
  · rename_i st2 heq
    rw [heq] at hs1
    simp only [outState] at hs1
    obtain ⟨s2, hs2, -⟩ := gth_out_events w st2 b
    split
    · rename_i s heq2
      rw [heq2] at hs2
      simp only [outState] at hs2
      exact ⟨s1 ++ s2, by rw [hs2, hs1, List.append_assoc]⟩
    · rename_i st3 heq2
      rw [heq2] at hs2
      simp only [outState] at hs2
      split
      · rename_i s heq3
        obtain ⟨hse, -⟩ := notify_error heq3
        refine ⟨s1 ++ s2, ?_⟩
        rw [hse, txtStep_events, hs2, hs1, List.append_assoc]
      · rename_i st5 heq3
        obtain ⟨hse, -⟩ := notify_ok heq3
        have hev : st5.events =
            st3.events ++ [Event.publish (utf8Encode (dumpsCompletedMessage b))] := by
          rw [hse]
          simp only [txtStep_events]
        refine ⟨s1 ++ s2 ++ [Event.publish (utf8Encode (dumpsCompletedMessage b))], ?_⟩
        split <;> simp [hev, hs2, hs1]

theorem pipelineTail_published (w : World) (st1 : PState) (a b : String) :
    ((pipelineTail w st1 a b).1.statusCode = 200 →
      publishedOf (pipelineTail w st1 a b).2 =
        publishedOf st1 ++ [utf8Encode (dumpsCompletedMessage b)]) ∧
    (publishedOf (pipelineTail w st1 a b).2 = publishedOf st1 ∨
      publishedOf (pipelineTail w st1 a b).2 =
        publishedOf st1 ++ [utf8Encode (dumpsCompletedMessage b)]) ∧
    ((w.downloadSucceeds = false ∨ w.dashExitOk = false ∨ w.thumbExitOk = false ∨
      w.uploadSucceeds = false ∨ w.publishSucceeds = false) →
      publishedOf (pipelineTail w st1 a b).2 = publishedOf st1) := by
  obtain ⟨s1, hs1, hp1⟩ := gdf_out_events w st1 a (b ++ "/dash/") ("/tmp/" ++ b ++ "_dash")
  simp only [pipelineTail]
  split
  · rename_i s heq
    rw [heq] at hs1
    simp only [outState] at hs1
    have hpub : publishedOf s = publishedOf st1 := by
      simp [publishedOf, hs1, publishedEvents_append, hp1]
    exact ⟨fun h => by simp [serverErrorResult] at h, Or.inl hpub, fun _ => hpub⟩
  · rename_i st2 heq
    rw [heq] at hs1
    simp only [outState] at hs1
    have hflags1 := gdf_ok_flags heq
    obtain ⟨s2, hs2, hp2⟩ := gth_out_events w st2 b
    split
    · rename_i s heq2
      rw [heq2] at hs2
      simp only [outState] at hs2
      have hpub : publishedOf s = publishedOf st1 := by
        simp [publishedOf, hs2, hs1, publishedEvents_append, hp1, hp2]
      exact ⟨fun h => by simp [serverErrorResult] at h, Or.inl hpub, fun _ => hpub⟩
    · rename_i st3 heq2
      rw [heq2] at hs2
      simp only [outState] at hs2
      have hflags2 := gth_ok_flags heq2
      split
      · rename_i s heq3
        obtain ⟨hse, -⟩ := notify_error heq3
        have hpub : publishedOf s = publishedOf st1 := by
          rw [publishedOf, hse, txtStep_events]
          simp [hs2, hs1, publishedEvents_append, hp1, hp2, publishedOf]
        exact ⟨fun h => by simp [serverErrorResult] at h, Or.inl hpub, fun _ => hpub⟩
      · rename_i st5 heq3
        obtain ⟨hse, hpt⟩ := notify_ok heq3
        have hev : st5.events =
            st3.events ++ [Event.publish (utf8Encode (dumpsCompletedMessage b))] := by
          rw [hse]
          simp only [txtStep_events]
        have hpub : publishedOf st5 =
            publishedOf st1 ++ [utf8Encode (dumpsCompletedMessage b)] := by
          simp [publishedOf, hev, hs2, hs1, publishedEvents_append, hp1, hp2,
            publishedEvents]
        have hcontra : ¬(w.downloadSucceeds = false ∨ w.dashExitOk = false ∨
            w.thumbExitOk = false ∨ w.uploadSucceeds = false ∨
            w.publishSucceeds = false) := by
          rintro (h | h | h | h | h)
          · rw [hflags1.1] at h; cases h
          · rw [hflags1.2] at h; cases h
          · rw [hflags2.1] at h; cases h
          · rw [hflags2.2] at h; cases h
          · rw [hpt] at h; cases h
        split
        · rename_i f heq4
          exact ⟨fun h => by simp [serverErrorResult] at h, Or.inr hpub,
            fun h => absurd h hcontra⟩
        · rename_i f heq4
          exact ⟨fun _ => hpub, Or.inr hpub, fun h => absurd h hcontra⟩

theorem handler_events_shape (w : World) :
    (transcoder_handler w).2.events = [] ∨
    ∃ k rest, (transcoder_handler w).2.events = Event.copy k :: rest := by
  cases ht : jsonTruthyOpt w.requestJson with
  | false => left; simp [transcoder_handler, ht]
  | true =>
    cases hl : get_latest_blob w.sourceBlobs with
    | none => left; simp [transcoder_handler, ht, hl]
    | some blob =>
      cases hc : w.copySucceeds with
      | false => left; simp [transcoder_handler, ht, hl, copy_original_file, hc]
      | true =>
        right
        have hr : transcoder_handler w =
            pipelineTail w
              { fs := w.initialFS,
                destKeys := w.initialDest ++
                  [base_file_name blob.name ++ "/original/" ++ blob.name],
                events :=
                  [Event.copy (base_file_name blob.name ++ "/original/" ++ blob.name)] }
              blob.name (base_file_name blob.name) := by
          simp [transcoder_handler, ht, hl, copy_original_file, hc]
        obtain ⟨s, hs⟩ := pipelineTail_events w
          { fs := w.initialFS,
            destKeys := w.initialDest ++
              [base_file_name blob.name ++ "/original/" ++ blob.name],
            events :=
              [Event.copy (base_file_name blob.name ++ "/original/" ++ blob.name)] }
          blob.name (base_file_name blob.name)
        rw [hr, hs]
        exact ⟨_, _, rfl⟩

theorem pipelineTail_status (w : World) (st1 : PState) (a b : String) :
    (pipelineTail w st1 a b).1.statusCode = 200 ∨
    (pipelineTail w st1 a b).1.statusCode = 500 := by
  simp only [pipelineTail]
  split
  · right; rfl
  · split
    · right; rfl
    · split
      · right; rfl
      · split
        · right; rfl
        · left; rfl

/-! ### Claim theorems -/

/-- C1: for every non-empty source bucket, `get_latest_blob` selects a listed
object whose creation timestamp is maximal (and it is the unique such object
when the maximum is strict); for an empty bucket it yields `none` and the
handler returns the 404 not-found result instead of dereferencing anything. -/
theorem claim_C1 :
    (∀ blobs : List Blob, blobs = [] → get_latest_blob blobs = none) ∧
    (∀ (blobs : List Blob) (b : Blob), get_latest_blob blobs = some b →
      b ∈ blobs ∧ ∀ x ∈ blobs, x.timeCreated ≤ b.timeCreated) ∧
    (∀ (blobs : List Blob) (b : Blob), b ∈ blobs →
      (∀ x ∈ blobs, x ≠ b → x.timeCreated < b.timeCreated) →
      get_latest_blob blobs = some b) ∧
    (∀ w : World, jsonTruthyOpt w.requestJson = true → w.sourceBlobs = [] →
      (transcoder_handler w).1.statusCode = 404) := by
  refine ⟨fun blobs h => by rw [h]; rfl, fun blobs b h => get_latest_blob_spec blobs b h,
    ?_, ?_⟩
  · intro blobs b hb hstrict
    match hm : get_latest_blob blobs with
    | none =>
      cases blobs with
      | nil => cases hb
      | cons a rest => simp [get_latest_blob] at hm
    | some m =>
      obtain ⟨hmem, hmax⟩ := get_latest_blob_spec blobs m hm
      by_cases he : m = b
      · rw [he]
      · have h1 := hstrict m hmem he
        have h2 := hmax b hb
        omega
  · intro w ht he
    simp [transcoder_handler, ht, he, get_latest_blob, notFoundResult]

/-- Witness for C1 at concrete inputs: the empty listing, a two-element
listing with a strict maximum, and the all-success world over an empty
source bucket. -/
theorem claim_C1_witness :
    get_latest_blob ([] : List Blob) = none ∧
    (Blob.mk "b" 7 ∈ [Blob.mk "a" 3, Blob.mk "b" 7] ∧
      ∀ x ∈ [Blob.mk "a" 3, Blob.mk "b" 7],
        x.timeCreated ≤ (Blob.mk "b" 7).timeCreated) ∧
    get_latest_blob [Blob.mk "a" 3, Blob.mk "b" 7] = some (Blob.mk "b" 7) ∧
    (transcoder_handler wEmptyBucket).1.statusCode = 404 :=
  ⟨claim_C1.1 [] rfl,
   claim_C1.2.1 [Blob.mk "a" 3, Blob.mk "b" 7] (Blob.mk "b" 7) (by decide),
   claim_C1.2.2.1 [Blob.mk "a" 3, Blob.mk "b" 7] (Blob.mk "b" 7) (by decide) (by decide),
   claim_C1.2.2.2 wEmptyBucket (by decide) rfl⟩

/-- C4 counterexample: the derivation does strip only the final extension
(`clip.mp4` to `clip`, `a.b.mov` to `a.b`), but it is not idempotent — on
the already-derived base name `a.b` it strips again, to `a`. -/
theorem claim_C4_counterexample :
    base_file_name "clip.mp4" = "clip" ∧ base_file_name "a.b.mov" = "a.b" ∧
    base_file_name (base_file_name "a.b.mov") ≠ base_file_name "a.b.mov" := by
  refine ⟨by decide, by decide, by decide⟩

/-- C4 (amended): the derivation takes the basename and strips only the
final extension (`clip.mp4` to `clip`, `a.b.mov` to `a.b`), and it is not
idempotent in general: a second application strips again exactly when the
derived name still satisfies the splitext stripping condition, i.e. some
non-dot character precedes its final dot (`a.b` strips again to `a`).
Derived names without such a character are fixed points — names with no
dot, and leading-dot names such as `.b` (derived from `.b.mp4`), which
contain a dot yet are left unchanged. -/
theorem claim_C4 :
    base_file_name "clip.mp4" = "clip" ∧ base_file_name "a.b.mov" = "a.b" ∧
    base_file_name "a.b" = "a" ∧
    base_file_name ".b.mp4" = ".b" ∧ base_file_name ".b" = ".b" ∧
    ∀ k : String,
      base_file_name (base_file_name k) = base_file_name k ↔
      stripsExt (base_file_name k).data = false :=
  ⟨by decide, by decide, by decide, by decide, by decide,
   fun k => base_file_name_idempotent_iff k⟩

/-- Witness for C4: the idempotence criterion applied at the concrete keys
`clip.mp4` (dot-free derived name, fixed), `.b.mp4` (dotted derived name
`.b`, still fixed), and `a.b.mov` (derived name `a.b`, stripped again). -/
theorem claim_C4_witness :
    (base_file_name (base_file_name "clip.mp4") = base_file_name "clip.mp4" ↔
      stripsExt (base_file_name "clip.mp4").data = false) ∧
    (base_file_name (base_file_name ".b.mp4") = base_file_name ".b.mp4" ↔
      stripsExt (base_file_name ".b.mp4").data = false) ∧
    (base_file_name (base_file_name "a.b.mov") = base_file_name "a.b.mov" ↔
      stripsExt (base_file_name "a.b.mov").data = false) :=
  ⟨claim_C4.2.2.2.2.2 "clip.mp4", claim_C4.2.2.2.2.2 ".b.mp4",
   claim_C4.2.2.2.2.2 "a.b.mov"⟩

/-- C5: directory upload preserves paths relative to the walked directory —
a local file `{dir}/{rel}` is uploaded under the prefix `{base}/dash/` with
destination key `{base}/dash/{rel}`, and conversely every upload produced
by the walk is of a file below the directory with destination key equal to
the prefix joined with the file's relative path. -/
theorem claim_C5 (fs : FS) (dir baseName rel : String)
    (hmem : (dir ++ "/" ++ rel) ∈ fs.files) (hrel : strStartsWith "/" rel = false) :
    ((dir ++ "/" ++ rel, baseName ++ "/dash/" ++ rel) ∈
        upload_directory fs dir (baseName ++ "/dash/")) ∧
    ∀ pr ∈ upload_directory fs dir (baseName ++ "/dash/"),
      pr.1 ∈ fs.files ∧ strStartsWith (dir ++ "/") pr.1 = true ∧
      pr.2 = os_path_join (baseName ++ "/dash/") (relPathUnder dir pr.1) := by
  constructor
  · rw [upload_directory, List.mem_filterMap]
    refine ⟨dir ++ "/" ++ rel, hmem, ?_⟩
    rw [if_pos (strStartsWith_dir_append dir rel), relPathUnder_append,
      os_path_join_dash baseName rel hrel]
  · intro pr hpr
    rw [upload_directory, List.mem_filterMap] at hpr
    obtain ⟨f, hf, hif⟩ := hpr
    by_cases hc : strStartsWith (dir ++ "/") f = true
    · rw [if_pos hc] at hif
      cases hif
      exact ⟨hf, hc, rfl⟩
    · rw [if_neg hc] at hif
      cases hif

/-- Witness for C5: the dash scratch directory holding `init-0.mp4` for
base name `movie` uploads it to `movie/dash/init-0.mp4`. -/
theorem claim_C5_witness :
    (("/tmp/movie_dash" ++ "/" ++ "init-0.mp4",
        "movie" ++ "/dash/" ++ "init-0.mp4") ∈
      upload_directory fsDashOut "/tmp/movie_dash" ("movie" ++ "/dash/")) ∧
    ∀ pr ∈ upload_directory fsDashOut "/tmp/movie_dash" ("movie" ++ "/dash/"),
      pr.1 ∈ fsDashOut.files ∧
      strStartsWith ("/tmp/movie_dash" ++ "/") pr.1 = true ∧
      pr.2 = os_path_join ("movie" ++ "/dash/") (relPathUnder "/tmp/movie_dash" pr.1) :=
  claim_C5 fsDashOut "/tmp/movie_dash" "movie" "init-0.mp4" (by decide) (by decide)

/-- C3 counterexample: on a scratch filesystem where `/tmp/b_dash` contains
a subdirectory, cleanup does not remove the directory and raises instead of
being a no-op — `os.walk` removes only the files, and `os.rmdir` then fails
on the non-empty directory. -/
theorem claim_C3_counterexample :
    clear_tmp_files fsNested "b" = .error fsNestedErr := by
  rfl

/-- C3 (amended): provided none of the three scratch paths has a
subdirectory below it (and the filesystem is well formed: no path is both a
file and a directory, and a file below a scratch path implies that path is
a directory), cleanup succeeds and removes exactly the three scratch paths
— all files below a scratch directory and the directory itself, or the
path directly when it is a plain file — leaving every other file and
directory untouched; it is a no-op when none of the paths exists. When a
scratch directory does contain a subdirectory, cleanup raises an error
instead (see the counterexample). -/
theorem claim_C3 (fs : FS) (b : String)
    (hwf : ∀ p ∈ tmp_paths b, ¬(p ∈ fs.files ∧ p ∈ fs.dirs))
    (hcl : ∀ p ∈ tmp_paths b, ∀ f ∈ fs.files,
      strStartsWith (p ++ "/") f = true → p ∈ fs.dirs)
    (hsub : ∀ p ∈ tmp_paths b, ∀ d ∈ fs.dirs, strStartsWith (p ++ "/") d = false) :
    (∃ fs2, clear_tmp_files fs b = .ok fs2 ∧
      (∀ f, f ∈ fs2.files ↔ f ∈ fs.files ∧
        ∀ p ∈ tmp_paths b, f ≠ p ∧ strStartsWith (p ++ "/") f = false) ∧
      (∀ d, d ∈ fs2.dirs ↔ d ∈ fs.dirs ∧ ∀ p ∈ tmp_paths b, d ≠ p)) ∧
    ((∀ p ∈ tmp_paths b, fsExists fs p = false) → clear_tmp_files fs b = .ok fs) := by
  have hm1 : ("/tmp/" ++ b ++ "_dash") ∈ tmp_paths b := by simp [tmp_paths]
  have hm2 : ("/tmp/" ++ b ++ "_txt") ∈ tmp_paths b := by simp [tmp_paths]
  have hm3 : ("/tmp/" ++ b ++ ".jpg") ∈ tmp_paths b := by simp [tmp_paths]
  obtain ⟨fsA, hA, hAf, hAd⟩ :=
    clearOne_spec fs ("/tmp/" ++ b ++ "_dash") (hwf _ hm1) (hcl _ hm1) (hsub _ hm1)
  have hwf2 : ¬(("/tmp/" ++ b ++ "_txt") ∈ fsA.files ∧ ("/tmp/" ++ b ++ "_txt") ∈ fsA.dirs) := by
    rintro ⟨h1, h2⟩
    exact hwf _ hm2 ⟨((hAf _).mp h1).1, ((hAd _).mp h2).1⟩
  have hcl2 : ∀ f ∈ fsA.files,
      strStartsWith ("/tmp/" ++ b ++ "_txt" ++ "/") f = true →
      ("/tmp/" ++ b ++ "_txt") ∈ fsA.dirs := by
    intro f hf hu
    exact (hAd _).mpr ⟨hcl _ hm2 f ((hAf f).mp hf).1 hu, tmp_txt_ne_dash b⟩
  have hsub2 : ∀ d ∈ fsA.dirs, strStartsWith ("/tmp/" ++ b ++ "_txt" ++ "/") d = false := by
    intro d hd
    exact hsub _ hm2 d ((hAd d).mp hd).1
  obtain ⟨fsB, hB, hBf, hBd⟩ := clearOne_spec fsA ("/tmp/" ++ b ++ "_txt") hwf2 hcl2 hsub2
  have hwf3 : ¬(("/tmp/" ++ b ++ ".jpg") ∈ fsB.files ∧ ("/tmp/" ++ b ++ ".jpg") ∈ fsB.dirs) := by
    rintro ⟨h1, h2⟩
    exact hwf _ hm3 ⟨((hAf _).mp ((hBf _).mp h1).1).1, ((hAd _).mp ((hBd _).mp h2).1).1⟩
  have hcl3 : ∀ f ∈ fsB.files,
      strStartsWith ("/tmp/" ++ b ++ ".jpg" ++ "/") f = true →
      ("/tmp/" ++ b ++ ".jpg") ∈ fsB.dirs := by
    intro f hf hu
    have hmem : ("/tmp/" ++ b ++ ".jpg") ∈ fs.dirs :=
      hcl _ hm3 f ((hAf f).mp ((hBf f).mp hf).1).1 hu
    exact (hBd _).mpr ⟨(hAd _).mpr ⟨hmem, tmp_jpg_ne_dash b⟩, tmp_jpg_ne_txt b⟩
  have hsub3 : ∀ d ∈ fsB.dirs, strStartsWith ("/tmp/" ++ b ++ ".jpg" ++ "/") d = false := by
    intro d hd
    exact hsub _ hm3 d ((hAd d).mp ((hBd d).mp hd).1).1
  obtain ⟨fsC, hC, hCf, hCd⟩ := clearOne_spec fsB ("/tmp/" ++ b ++ ".jpg") hwf3 hcl3 hsub3
  constructor
  · refine ⟨fsC, ?_, ?_, ?_⟩
    · simp [clear_tmp_files, tmp_paths, clearList, hA, hB, hC]
    · intro f
      rw [hCf f, hBf f, hAf f]
      simp only [tmp_paths, List.forall_mem_cons, List.forall_mem_nil]
      tauto
    · intro d
      rw [hCd d, hBd d, hAd d]
      simp only [tmp_paths, List.forall_mem_cons, List.forall_mem_nil]
      tauto
  · intro hne
    have h1 := hne _ hm1
    have h2 := hne _ hm2
    have h3 := hne _ hm3
    simp [clear_tmp_files, tmp_paths, clearList, clearOne, h1, h2, h3]

/-- Witness for C3 on a typical pre-cleanup filesystem: `/tmp/b_dash` with
one file inside, an empty `/tmp/b_txt`, the thumbnail file `/tmp/b.jpg`,
and an unrelated file/directory that survive. -/
theorem claim_C3_witness :
    (∃ fs2, clear_tmp_files fsFlat "b" = .ok fs2 ∧
      (∀ f, f ∈ fs2.files ↔ f ∈ fsFlat.files ∧
        ∀ p ∈ tmp_paths "b", f ≠ p ∧ strStartsWith (p ++ "/") f = false) ∧
      (∀ d, d ∈ fs2.dirs ↔ d ∈ fsFlat.dirs ∧ ∀ p ∈ tmp_paths "b", d ≠ p)) ∧
    ((∀ p ∈ tmp_paths "b", fsExists fsFlat p = false) →
      clear_tmp_files fsFlat "b" = .ok fsFlat) :=
  claim_C3 fsFlat "b" (by decide) (by decide) (by decide)

/-- C7: with a truthy request payload and an empty source bucket the handler
returns the 404 result and performs no side effect at all — no external
event happens, and neither the local filesystem nor the destination bucket
changes. -/
theorem claim_C7 :
    ∀ w : World, jsonTruthyOpt w.requestJson = true → w.sourceBlobs = [] →
      (transcoder_handler w).1.statusCode = 404 ∧
      (transcoder_handler w).2.events = [] ∧
      (transcoder_handler w).2.fs = w.initialFS ∧
      (transcoder_handler w).2.destKeys = w.initialDest := by
  intro w ht he
  simp [transcoder_handler, ht, he, get_latest_blob, notFoundResult]

/-- Witness for C7 at the all-success world over an empty source bucket. -/
theorem claim_C7_witness :
    (transcoder_handler wEmptyBucket).1.statusCode = 404 ∧
    (transcoder_handler wEmptyBucket).2.events = [] ∧
    (transcoder_handler wEmptyBucket).2.fs = wEmptyBucket.initialFS ∧
    (transcoder_handler wEmptyBucket).2.destKeys = wEmptyBucket.initialDest :=
  claim_C7 wEmptyBucket (by decide) rfl

/-- C2: the archive copy happens strictly before the transcode subprocess
is started (every `runDash` event in any run's trace is preceded by a
`copy` event), and in every run whose transcode process exits non-zero the
handler returns 500, the archived original is present in the destination
bucket, nothing but the archived original was added to the destination
bucket (in particular no DASH artifact), and no notification was
published. -/
theorem claim_C2 :
    (∀ (w : World) (blob : Blob),
      jsonTruthyOpt w.requestJson = true →
      get_latest_blob w.sourceBlobs = some blob →
      w.copySucceeds = true → w.downloadSucceeds = true → w.dashExitOk = false →
      (transcoder_handler w).1.statusCode = 500 ∧
      (base_file_name blob.name ++ "/original/" ++ blob.name) ∈
        (transcoder_handler w).2.destKeys ∧
      (transcoder_handler w).2.destKeys =
        w.initialDest ++ [base_file_name blob.name ++ "/original/" ++ blob.name] ∧
      publishedOf (transcoder_handler w).2 = []) ∧
    (∀ (w : World) (l1 l2 : List Event),
      (transcoder_handler w).2.events = l1 ++ Event.runDash :: l2 →
      ∃ k, Event.copy k ∈ l1) := by
  constructor
  · intro w blob ht hb hc hd hx
    refine ⟨?_, ?_, ?_, ?_⟩ <;>
      simp [transcoder_handler, ht, hb, copy_original_file, hc, pipelineTail,
        generate_dash_files, download_blob, hd, hx, serverErrorResult,
        publishedOf, publishedEvents]
  · intro w l1 l2 heq
    rcases handler_events_shape w with h | ⟨k, rest, h⟩
    · rw [h] at heq
      exact absurd heq.symm (by simp)
    · rw [h] at heq
      cases l1 with
      | nil => simp at heq
      | cons e l1x =>
        injection heq with h1 h2
        subst h1
        exact ⟨k, List.mem_cons_self ..⟩

/-- Witness for C2: the all-success world whose transcode exits non-zero,
and the concrete event split of that run around its `runDash` event. -/
theorem claim_C2_witness :
    ((transcoder_handler wDashFail).1.statusCode = 500 ∧
      ("movie" ++ "/original/" ++ "movie.mp4") ∈ (transcoder_handler wDashFail).2.destKeys ∧
      (transcoder_handler wDashFail).2.destKeys =
        wDashFail.initialDest ++ ["movie" ++ "/original/" ++ "movie.mp4"] ∧
      publishedOf (transcoder_handler wDashFail).2 = []) ∧
    (∃ k, Event.copy k ∈
      [Event.copy "movie/original/movie.mp4", Event.download "movie.mp4" "/tmp/movie.mp4"]) := by
  constructor
  · have h := claim_C2.1 wDashFail ⟨"movie.mp4", 5⟩ (by decide) (by decide) rfl rfl rfl
    simpa using h
  · exact claim_C2.2 wDashFail
      [Event.copy "movie/original/movie.mp4", Event.download "movie.mp4" "/tmp/movie.mp4"]
      [] (by decide)

/-- C6 counterexample: a run in which every external call succeeds but the
transcode left a subdirectory inside the dash scratch directory fails
during cleanup with status 500 — yet its completion notification has
already been published, refuting "no notification is published on any
failed run". -/
theorem claim_C6_counterexample :
    (transcoder_handler wDashSubdir).1.statusCode = 500 ∧
    publishedOf (transcoder_handler wDashSubdir).2 =
      [utf8Encode (dumpsCompletedMessage "movie")] := by
  constructor
  · decide
  · decide

/-- C6 (amended): on every fully successful run exactly one notification is
published and its payload is the UTF-8 encoding of the serialised JSON
object carrying "Processing completed for {base}"; at most one
notification is ever published; and no notification is published on a run
that fails at or before the publish step (any external-step failure flag
set). A run can, however, fail after publishing — during cleanup — and
then returns 500 with the notification already out (see the
counterexample). -/
theorem claim_C6 (w : World) (blob : Blob)
    (hb : get_latest_blob w.sourceBlobs = some blob) :
    ((transcoder_handler w).1.statusCode = 200 →
      publishedOf (transcoder_handler w).2 =
        [utf8Encode (dumpsCompletedMessage (base_file_name blob.name))]) ∧
    (publishedOf (transcoder_handler w).2 = [] ∨
      publishedOf (transcoder_handler w).2 =
        [utf8Encode (dumpsCompletedMessage (base_file_name blob.name))]) ∧
    ((w.copySucceeds = false ∨ w.downloadSucceeds = false ∨ w.dashExitOk = false ∨
      w.thumbExitOk = false ∨ w.uploadSucceeds = false ∨ w.publishSucceeds = false) →
      publishedOf (transcoder_handler w).2 = []) := by
  cases ht : jsonTruthyOpt w.requestJson with
  | false =>
    have hr : transcoder_handler w =
        (invalidInputResult, ⟨w.initialFS, w.initialDest, []⟩) := by
      simp [transcoder_handler, ht]
    rw [hr]
    exact ⟨fun h => by simp [invalidInputResult] at h, Or.inl rfl, fun _ => rfl⟩
  | true =>
    cases hc : w.copySucceeds with
    | false =>
      have hr : transcoder_handler w =
          (serverErrorResult, ⟨w.initialFS, w.initialDest, []⟩) := by
        simp [transcoder_handler, ht, hb, copy_original_file, hc]
      rw [hr]
      exact ⟨fun h => by simp [serverErrorResult] at h, Or.inl rfl, fun _ => rfl⟩
    | true =>
      have hr : transcoder_handler w =
          pipelineTail w
            { fs := w.initialFS,
              destKeys := w.initialDest ++
                [base_file_name blob.name ++ "/original/" ++ blob.name],
              events :=
                [Event.copy (base_file_name blob.name ++ "/original/" ++ blob.name)] }
            blob.name (base_file_name blob.name) := by
        simp [transcoder_handler, ht, hb, copy_original_file, hc]
      obtain ⟨h200, hor, hflags⟩ := pipelineTail_published w
        { fs := w.initialFS,
          destKeys := w.initialDest ++
            [base_file_name blob.name ++ "/original/" ++ blob.name],
          events :=
            [Event.copy (base_file_name blob.name ++ "/original/" ++ blob.name)] }
        blob.name (base_file_name blob.name)
      rw [hr]
      refine ⟨fun h => by simpa [publishedOf, publishedEvents] using h200 h, ?_, ?_⟩
      · rcases hor with h | h
        · exact Or.inl (by simpa [publishedOf, publishedEvents] using h)
        · exact Or.inr (by simpa [publishedOf, publishedEvents] using h)
      · rintro (h | h | h | h | h | h)
        · exact Bool.noConfusion h
        all_goals
          simpa [publishedOf, publishedEvents] using hflags (by tauto)

/-- Witness for C6 at the all-success world: the run returns 200 and
publishes exactly the completion payload for `movie`. -/
theorem claim_C6_witness :
    ((transcoder_handler wOk).1.statusCode = 200 →
      publishedOf (transcoder_handler wOk).2 =
        [utf8Encode (dumpsCompletedMessage (base_file_name "movie.mp4"))]) ∧
    (publishedOf (transcoder_handler wOk).2 = [] ∨
      publishedOf (transcoder_handler wOk).2 =
        [utf8Encode (dumpsCompletedMessage (base_file_name "movie.mp4"))]) ∧
    ((wOk.copySucceeds = false ∨ wOk.downloadSucceeds = false ∨ wOk.dashExitOk = false ∨
      wOk.thumbExitOk = false ∨ wOk.uploadSucceeds = false ∨ wOk.publishSucceeds = false) →
      publishedOf (transcoder_handler wOk).2 = []) :=
  claim_C6 wOk ⟨"movie.mp4", 5⟩ (by decide)

/-- C8 counterexample: the request body `false` is present and parseable
JSON, yet the handler rejects it with status 400 because Python truthiness
(`if not request_json:`) treats it like a missing body — refuting "proceeds
regardless of the payload's contents" for every parseable payload. -/
theorem claim_C8_counterexample :
    wFalseJson.requestJson = some (Json.bool false) ∧
    (transcoder_handler wFalseJson).1.statusCode = 400 := by
  exact ⟨rfl, by decide⟩

/-- C8 (amended): the handler returns 400 exactly when the parsed payload
is absent, unparseable, or falsy under Python truthiness (`null`, `false`,
`0`, `""`, `[]`, `{}`); in that case nothing else happens (no external
event). For every truthy payload it proceeds regardless of the payload's
contents. -/
theorem claim_C8 (w : World) :
    ((transcoder_handler w).1.statusCode = 400 ↔ jsonTruthyOpt w.requestJson = false) ∧
    (jsonTruthyOpt w.requestJson = false → (transcoder_handler w).2.events = []) := by
  cases ht : jsonTruthyOpt w.requestJson with
  | false =>
    have hr : transcoder_handler w =
        (invalidInputResult, ⟨w.initialFS, w.initialDest, []⟩) := by
      simp [transcoder_handler, ht]
    rw [hr]
    exact ⟨by simp [invalidInputResult], fun _ => rfl⟩
  | true =>
    constructor
    · constructor
      · intro h400
        exfalso
        cases hl : get_latest_blob w.sourceBlobs with
        | none =>
          rw [show transcoder_handler w = (notFoundResult, ⟨w.initialFS, w.initialDest, []⟩)
            from by simp [transcoder_handler, ht, hl]] at h400
          simp [notFoundResult] at h400
        | some blob =>
          cases hc : w.copySucceeds with
          | false =>
            rw [show transcoder_handler w =
                (serverErrorResult, ⟨w.initialFS, w.initialDest, []⟩) from by
              simp [transcoder_handler, ht, hl, copy_original_file, hc]] at h400
            simp [serverErrorResult] at h400
          | true =>
            rw [show transcoder_handler w =
                pipelineTail w
                  { fs := w.initialFS,
                    destKeys := w.initialDest ++
                      [base_file_name blob.name ++ "/original/" ++ blob.name],
                    events := [Event.copy
                      (base_file_name blob.name ++ "/original/" ++ blob.name)] }
                  blob.name (base_file_name blob.name) from by
              simp [transcoder_handler, ht, hl, copy_original_file, hc]] at h400
            rcases pipelineTail_status w
              { fs := w.initialFS,
                destKeys := w.initialDest ++
                  [base_file_name blob.name ++ "/original/" ++ blob.name],
                events := [Event.copy
                  (base_file_name blob.name ++ "/original/" ++ blob.name)] }
              blob.name (base_file_name blob.name) with h | h
            · rw [h400] at h; cases h
            · rw [h400] at h; cases h
      · intro h
        exact Bool.noConfusion h
    · intro h
      exact Bool.noConfusion h

/-- Witness for C8 at the falsy-JSON request: status 400 with no events. -/
theorem claim_C8_witness :
    (transcoder_handler wFalseJson).1.statusCode = 400 ∧
    (transcoder_handler wFalseJson).2.events = [] :=
  ⟨(claim_C8 wFalseJson).1.mpr rfl, (claim_C8 wFalseJson).2 rfl⟩

/-- C9: cleanup runs only after the notification is published, so in every
run that reaches the publish step with everything before it succeeding and
whose publish raises, the handler returns 500 and all three scratch paths
(`{base}_dash`, `{base}_txt`, `{base}.jpg` under `/tmp`) are still present
on local disk; no notification payload was recorded. -/
theorem claim_C9 (w : World) (blob : Blob)
    (ht : jsonTruthyOpt w.requestJson = true)
    (hb : get_latest_blob w.sourceBlobs = some blob)
    (hc : w.copySucceeds = true) (hd : w.downloadSucceeds = true)
    (hx : w.dashExitOk = true) (hth : w.thumbExitOk = true)
    (hu : w.uploadSucceeds = true) (hp : w.publishSucceeds = false) :
    (transcoder_handler w).1.statusCode = 500 ∧
    publishedOf (transcoder_handler w).2 = [] ∧
    fsExists (transcoder_handler w).2.fs
      ("/tmp/" ++ base_file_name blob.name ++ "_dash") = true ∧
    fsExists (transcoder_handler w).2.fs
      ("/tmp/" ++ base_file_name blob.name ++ "_txt") = true ∧
    fsExists (transcoder_handler w).2.fs
      ("/tmp/" ++ base_file_name blob.name ++ ".jpg") = true := by
  refine ⟨?_, ?_, ?_, ?_, ?_⟩ <;>
    simp [transcoder_handler, ht, hb, copy_original_file, hc, pipelineTail,
      generate_dash_files, download_blob, hd, hx, uploadList_ok, hu,
      generate_thumbnail, hth, upload_blob, job_completed_notification, hp,
      serverErrorResult, publishedOf, publishedEvents, publishedEvents_append,
      publishedEvents_map_upload] <;>
    split <;>
    simp_all [fsExists, addFile, addDir, addFileList, addDirList,
      publishedOf, publishedEvents, publishedEvents_append, publishedEvents_map_upload]

/-- Witness for C9 at the all-success world whose publish raises. -/
theorem claim_C9_witness :
    (transcoder_handler wPubFail).1.statusCode = 500 ∧
    publishedOf (transcoder_handler wPubFail).2 = [] ∧
    fsExists (transcoder_handler wPubFail).2.fs
      ("/tmp/" ++ base_file_name "movie.mp4" ++ "_dash") = true ∧
    fsExists (transcoder_handler wPubFail).2.fs
      ("/tmp/" ++ base_file_name "movie.mp4" ++ "_txt") = true ∧
    fsExists (transcoder_handler wPubFail).2.fs
      ("/tmp/" ++ base_file_name "movie.mp4" ++ ".jpg") = true :=
  claim_C9 wPubFail ⟨"movie.mp4", 5⟩ (by decide) (by decide) rfl rfl rfl rfl rfl rfl

/-- C10 counterexample: for the source object `movie.jpg` the staged
download path `/tmp/movie.jpg` coincides with the thumbnail scratch path
`/tmp/{base}.jpg`, so after a fully successful run (status 200) the
downloaded source file does not persist — cleanup removed it. -/
theorem claim_C10_counterexample :
    (transcoder_handler wJpgSource).1.statusCode = 200 ∧
    fsExists (transcoder_handler wJpgSource).2.fs "/tmp/movie.jpg" = false := by
  constructor
  · decide
  · decide

/-- C10 (amended): the staged download `/tmp/{objectKey}` survives a fully
successful run whenever it is neither equal to nor located below one of
the three cleanup paths — in particular for every slash-free key whose
extension is not `.jpg`; when it does coincide (key `{base}.jpg`, see the
counterexample) cleanup removes it. -/
theorem claim_C10 (w : World) (blob : Blob)
    (ht : jsonTruthyOpt w.requestJson = true)
    (hb : get_latest_blob w.sourceBlobs = some blob)
    (hc : w.copySucceeds = true) (hd : w.downloadSucceeds = true)
    (hx : w.dashExitOk = true) (hth : w.thumbExitOk = true)
    (hu : w.uploadSucceeds = true) (hp : w.publishSucceeds = true)
    (hloc : ∀ p ∈ tmp_paths (base_file_name blob.name),
      "/tmp/" ++ blob.name ≠ p ∧
      strStartsWith (p ++ "/") ("/tmp/" ++ blob.name) = false)
    (h200 : (transcoder_handler w).1.statusCode = 200) :
    ("/tmp/" ++ blob.name) ∈ (transcoder_handler w).2.fs.files := by
  simp only [transcoder_handler, ht, hb, copy_original_file, hc, pipelineTail,
    generate_dash_files, download_blob, hd, hx, uploadList_ok, hu,
    generate_thumbnail, hth, upload_blob, job_completed_notification, hp,
    if_true, Bool.not_true, Bool.false_eq_true, if_false, eq_self_iff_true,
    ite_true, ite_false] at h200 ⊢
  split
  · rename_i f heq
    rw [heq] at h200
    simp [serverErrorResult] at h200
  · rename_i f heq
    exact clearList_keep (tmp_paths (base_file_name blob.name)) _ f _ heq
      (by simp [addFile, addDir, addFileList, addDirList, apply_ite]) hloc

/-- Witness for C10 at the all-success world over `movie.mp4`, whose
staged path `/tmp/movie.mp4` is none of the cleanup paths. -/
theorem claim_C10_witness :
    ("/tmp/" ++ "movie.mp4") ∈ (transcoder_handler wOk).2.fs.files :=
  claim_C10 wOk ⟨"movie.mp4", 5⟩ (by decide) (by decide) rfl rfl rfl rfl rfl rfl
    (by decide) (by decide)

end VodPipeline
